import Mathlib

/-! httpcache: the remote (redis) cache backend and the cache constructors

A shallow embedding of `cache/redis/redis.go` (`redisCache.Set`, `Get`, `Delete`,
`Flush`) and of the constructors of `httpcache.go` (`NewWithInmemoryCache`,
`NewWithRedisCache`).

The collaborators that live outside the repository are explicit parameters:

* the redis client (`*redis.Client`) is a record of operations over a store state,
* the compression engine is a record with `Compress` / `Decompress`,
* `encoding/json` is a record with `Marshal` / `Unmarshal`.

Go's `error` results are `Option`: `none` is `nil`.  Byte slices are lists of
naturals.  `time.Duration` is a signed 64-bit nanosecond count, modelled as an
`Int` with explicit wrap-around where the code multiplies.
-/

namespace httpcache

/-- A Go byte slice (`[]byte`); `nil` and the empty slice are both `[]`. -/
abbrev Bytes := List Nat

/-! ## Package `time` -/

namespace time

/-- A `time.Duration`: a signed 64-bit count of nanoseconds. -/
abbrev Duration := Int

/-- The constant `time.Second`, in nanoseconds. -/
def Second : Duration := 1000000000

/-- The constant `time.Minute`, in nanoseconds. -/
def Minute : Duration := 60 * Second

/-- Two's-complement reduction of an integer to the signed 64-bit range, the
result Go gives to an `int64` operation that overflows. -/
def wrapInt64 (x : Int) : Int := (x + 2 ^ 63) % 2 ^ 64 - 2 ^ 63

/-- Go's `a * b` on two `time.Duration` values. -/
def mul (a b : Duration) : Duration := wrapInt64 (a * b)

/-- Membership in the signed 64-bit range. -/
def isInt64 (x : Int) : Prop := -(2 ^ 63) ≤ x ∧ x < 2 ^ 63

end time

/-! ## Package `cache`: the entity and the error kinds -/

namespace cache

/-- Modelled from the spec: the declaration of `cache.CachedResponse` is not part of
the two source files.  The spec (§3) gives it a status code, a header mapping from a
name to an ordered sequence of values, and a body of raw bytes. -/
structure CachedResponse where
  status : Nat
  headers : List (String × List String)
  body : Bytes
deriving DecidableEq

/-- The Go zero value `cache.CachedResponse{}`. -/
def CachedResponse.zero : CachedResponse := ⟨0, [], []⟩

/-- Modelled from the spec: the error values `cache.ErrCacheMissed`,
`cache.ErrInvalidCachedResponse` and `cache.ErrStorageInternal` are declared outside
the two source files; the spec (§7) lists exactly these three kinds. -/
inductive Error where
  | ErrCacheMissed
  | ErrInvalidCachedResponse
  | ErrStorageInternal
deriving DecidableEq

/-- The constant `cache.CacheRedis` returned by `Origin`; the spec (§4.1) gives the
value `"redis"`. -/
def CacheRedis : String := "redis"

end cache

open cache cache.Error

/-! ## External collaborators -/

namespace redis

/-- Errors a redis command can report: the sentinel `redis.Nil` (key not found) and
any other error (network, protocol, server), tagged by a number. -/
inductive Err where
  | Nil
  | other (code : Nat)
deriving DecidableEq

/-- The part of `*redis.Client` the backend calls, over a store state `σ`.
Each command returns its error (`cmd.Err()`); `get` also returns the value
(`cmd.Val()`) and does not modify the store. -/
structure Client (σ : Type) where
  set : σ → String → Bytes → time.Duration → Option Err × σ
  get : σ → String → Except Err Bytes
  del : σ → String → Option Err × σ
  flushAll : σ → Option Err × σ

end redis

namespace compression

/-- The compression engine (`*compression.Engine`): both directions may fail. -/
structure Engine where
  Compress : Bytes → Option Bytes
  Decompress : Bytes → Option Bytes

end compression

namespace json

/-- The two functions of `encoding/json` the backend uses, at type `CachedResponse`.
`Marshal` returns `none` when it reports an error (its byte result is then `nil`);
`Unmarshal` returns the decoded value or `none` on error. -/
structure Codec where
  Marshal : CachedResponse → Option Bytes
  Unmarshal : Bytes → Option CachedResponse

end json

/-! ## `cache/redis/redis.go` -/

/-- The struct `redisCache` (the context field carries no data and is left out). -/
structure redisCache (σ : Type) where
  cache : redis.Client σ
  expiryTime : time.Duration
  compressionEngine : compression.Engine

/-- The constructor `NewCache`: `engine` is the result of `compression.NewEngine`; when that fails the
constructor panics, which is `none` here. -/
def NewCache {σ : Type} (engine : Option compression.Engine) (c : redis.Client σ)
    (exptime : time.Duration) : Option (redisCache σ) :=
  match engine with
  | none => none
  | some e => some ⟨c, exptime, e⟩

/-- The method `redisCache.Set`.  The error of `json.Marshal` is discarded (`valueJSON, _ :=`), so
on a marshalling error `valueJSON` is `nil`.  Returns the error and the new store. -/
def redisCache.Set {σ : Type} (js : json.Codec) (i : redisCache σ) (st : σ)
    (key : String) (value : CachedResponse) : Option Error × σ :=
  let valueJSON := (js.Marshal value).getD []
  match i.compressionEngine.Compress valueJSON with
  | none => (some ErrStorageInternal, st)
  | some input =>
    match i.cache.set st key input (time.mul i.expiryTime time.Second) with
    | (some _, st1) => (some ErrStorageInternal, st1)
    | (none, st1) => (none, st1)

/-- The method `redisCache.Get`.  Returns the response, the error and the new store. -/
def redisCache.Get {σ : Type} (js : json.Codec) (i : redisCache σ) (st : σ)
    (key : String) : CachedResponse × Option Error × σ :=
  match i.cache.get st key with
  | .error err =>
    if err = redis.Err.Nil then (CachedResponse.zero, some ErrCacheMissed, st)
    else (CachedResponse.zero, some ErrStorageInternal, st)
  | .ok val =>
    match i.compressionEngine.Decompress val with
    | none =>
      -- the result of `Del` is ignored
      (CachedResponse.zero, some ErrInvalidCachedResponse, (i.cache.del st key).2)
    | some input =>
      match js.Unmarshal input with
      | none => (CachedResponse.zero, some ErrStorageInternal, st)
      | some res => (res, none, st)

/-- The method `redisCache.Delete`: a `Set` of the `nil` value with expiration `0`. -/
def redisCache.Delete {σ : Type} (i : redisCache σ) (st : σ) (key : String) :
    Option Error × σ :=
  match i.cache.set st key [] 0 with
  | (some _, st1) => (some ErrStorageInternal, st1)
  | (none, st1) => (none, st1)

/-- The method `redisCache.Origin`. -/
def redisCache.Origin {σ : Type} (_i : redisCache σ) : String := cache.CacheRedis

/-- The method `redisCache.Flush`. -/
def redisCache.Flush {σ : Type} (i : redisCache σ) (st : σ) : Option Error × σ :=
  match i.cache.flushAll st with
  | (some _, st1) => (some ErrStorageInternal, st1)
  | (none, st1) => (none, st1)

/-! ## `httpcache.go` -/

/-- The constant `MaxSizeCacheItem`. -/
def MaxSizeCacheItem : Nat := 100

namespace inmemcache

/-- The eviction algorithms of the embedded store (`inmemcache.LRUAlgorithm`,
`inmemcache.LFUAlgorithm`); `unset` is the zero value of a fresh option. -/
inductive Algorithm where
  | unset
  | LRUAlgorithm
  | LFUAlgorithm
deriving DecidableEq

/-- The option record built by `gotcha.NewOption()` and its setters. -/
structure Option where
  CacheAlgorithm : Algorithm
  ExpiryTime : time.Duration
  MaxSizeItem : Nat
deriving DecidableEq

/-- The call `gotcha.NewOption()`: the zero option. -/
def NewOption : Option := ⟨Algorithm.unset, 0, 0⟩

/-- The setter `SetAlgorithm`. -/
def Option.SetAlgorithm (o : Option) (a : Algorithm) : Option :=
  ⟨a, o.ExpiryTime, o.MaxSizeItem⟩

/-- The setter `SetExpiryTime`. -/
def Option.SetExpiryTime (o : Option) (d : time.Duration) : Option :=
  ⟨o.CacheAlgorithm, d, o.MaxSizeItem⟩

/-- The setter `SetMaxSizeItem`. -/
def Option.SetMaxSizeItem (o : Option) (n : Nat) : Option :=
  ⟨o.CacheAlgorithm, o.ExpiryTime, n⟩

end inmemcache

/-- The variadic `duration ...time.Duration` of both constructors: the first element
when there is one, the zero duration otherwise. -/
def firstDuration (duration : List time.Duration) : time.Duration :=
  match duration with
  | [] => 0
  | d :: _ => d

/-- The constructor `NewWithInmemoryCache`, up to the option record handed to `gotcha.New`. -/
def NewWithInmemoryCache (duration : List time.Duration) : inmemcache.Option :=
  let expiryTime := firstDuration duration
  ((inmemcache.NewOption.SetAlgorithm inmemcache.Algorithm.LRUAlgorithm).SetExpiryTime
    expiryTime).SetMaxSizeItem MaxSizeCacheItem

/-- The constructor `NewWithRedisCache`, up to the backend handed to `newClient`: the client `c` is
the one `redis.NewClient` returns for the connection options. -/
def NewWithRedisCache {σ : Type} (engine : Option compression.Engine)
    (c : redis.Client σ) (duration : List time.Duration) : Option (redisCache σ) :=
  let expiryTime := firstDuration duration
  NewCache engine c expiryTime

/-! ## A reference redis server

The store the client talks to, as far as the backend can observe it: a finite map from
keys to a value and the expiration the `SET` command carried.  `SET` replaces the
entry, `GET` of an absent key reports `redis.Nil`, `DEL` removes the key, `FLUSHALL`
removes every key.  An expiration of zero means that the key has no expiration time.
There is no clock: a read sees the store as the previous command left it.  Each
command can be made to fail with a transport error, in which case the store is left as
it was. -/

namespace redis

/-- What the server keeps under a key. -/
structure Entry where
  value : Bytes
  expiration : time.Duration
deriving DecidableEq

/-- The server state: an association list with at most one entry per key. -/
abbrev Store := List (String × Entry)

/-- The entry under `key`, if any. -/
def Store.lookup : Store → String → Option Entry
  | [], _ => none
  | (k, e) :: rest, key => if k = key then some e else Store.lookup rest key

/-- The store without `key`. -/
def Store.remove : Store → String → Store
  | [], _ => []
  | (k, e) :: rest, key =>
    if k = key then Store.remove rest key else (k, e) :: Store.remove rest key

/-- The store with `key` bound to `e`, any earlier entry replaced. -/
def Store.put (s : Store) (key : String) (e : Entry) : Store :=
  (key, e) :: Store.remove s key

/-- Which commands fail with a transport error, and with which error code. -/
structure Faults where
  set : Option Nat
  get : Option Nat
  del : Option Nat
  flushAll : Option Nat
deriving DecidableEq

/-- No command fails. -/
def Faults.none : Faults := ⟨Option.none, Option.none, Option.none, Option.none⟩

/-- The client connected to the reference server, under the given faults. -/
def simClient (f : Faults) : Client Store where
  set st key val exp :=
    match f.set with
    | some c => (some (Err.other c), st)
    | Option.none => (Option.none, Store.put st key ⟨val, exp⟩)
  get st key :=
    match f.get with
    | some c => .error (Err.other c)
    | Option.none =>
      match Store.lookup st key with
      | Option.none => .error Err.Nil
      | some e => .ok e.value
  del st key :=
    match f.del with
    | some c => (some (Err.other c), st)
    | Option.none => (Option.none, Store.remove st key)
  flushAll st :=
    match f.flushAll with
    | some c => (some (Err.other c), st)
    | Option.none => (Option.none, [])

end redis

/-- The backend over the reference server. -/
def simCache (f : redis.Faults) (expiryTime : time.Duration) (eng : compression.Engine) :
    redisCache redis.Store :=
  ⟨redis.simClient f, expiryTime, eng⟩

/-- The store reached from `st` by calling `Set` on each pair of the list in turn. -/
def setAll {σ : Type} (js : json.Codec) (i : redisCache σ) (st : σ) :
    List (String × CachedResponse) → σ
  | [] => st
  | (k, v) :: rest => setAll js i (redisCache.Set js i st k v).2 rest

/-! ## Sample collaborators, for concrete evaluation -/

namespace sample

/-- An engine that frames its input with one leading byte and rejects unframed input
(the empty input included). -/
def tagEngine : compression.Engine where
  Compress b := some (40 :: b)
  Decompress b :=
    match b with
    | 40 :: rest => some rest
    | _ => none

/-- An engine that stores bytes as they are and accepts every input. -/
def plainEngine : compression.Engine where
  Compress b := some b
  Decompress b := some b

/-- A small encoder: the status followed by the body.  It reports an error on a value
with headers, and decoding the empty input is an error. -/
def flatJSON : json.Codec where
  Marshal v := if v.headers = [] then some (v.status :: v.body) else none
  Unmarshal b :=
    match b with
    | [] => none
    | s :: body => some ⟨s, [], body⟩

/-- The response `{status: 200, body: "hi"}`. -/
def resp : CachedResponse := ⟨200, [], [104, 105]⟩

/-- Another response, `{status: 404, body: ""}`. -/
def respOld : CachedResponse := ⟨404, [], []⟩

/-- A response with a header, which `flatJSON` cannot encode. -/
def respHdr : CachedResponse := ⟨200, [("X", ["1"])], [104, 105]⟩

end sample

/-! ## Facts about the reference store -/

namespace redis

theorem Store.lookup_remove_self (s : Store) (k : String) :
    Store.lookup (Store.remove s k) k = none := by
  induction s with
  | nil => rfl
  | cons p rest ih =>
    obtain ⟨k1, e⟩ := p
    by_cases h : k1 = k
    · simp [Store.remove, h, ih]
    · simp [Store.remove, Store.lookup, h, ih]

theorem Store.lookup_remove_other (s : Store) (k k2 : String) (h : k2 ≠ k) :
    Store.lookup (Store.remove s k) k2 = Store.lookup s k2 := by
  induction s with
  | nil => rfl
  | cons p rest ih =>
    obtain ⟨k1, e⟩ := p
    by_cases h1 : k1 = k
    · subst h1
      have h2 : ¬ k1 = k2 := fun h3 => h h3.symm
      simp [Store.remove, Store.lookup, ih, h2]
    · by_cases h2 : k1 = k2
      · subst h2
        simp [Store.remove, Store.lookup, h1]
      · simp [Store.remove, Store.lookup, h1, h2, ih]

theorem Store.lookup_put_self (s : Store) (k : String) (e : Entry) :
    Store.lookup (Store.put s k e) k = some e := by
  simp [Store.put, Store.lookup]

theorem Store.lookup_put_other (s : Store) (k k2 : String) (e : Entry) (h : k2 ≠ k) :
    Store.lookup (Store.put s k e) k2 = Store.lookup s k2 := by
  have h2 : ¬ k = k2 := fun h3 => h h3.symm
  simp [Store.put, Store.lookup, h2, Store.lookup_remove_other s k k2 h]

theorem Store.remove_remove (s : Store) (k : String) :
    Store.remove (Store.remove s k) k = Store.remove s k := by
  induction s with
  | nil => rfl
  | cons p rest ih =>
    obtain ⟨k1, e⟩ := p
    by_cases h : k1 = k
    · simp [Store.remove, h, ih]
    · simp [Store.remove, h, ih]

theorem Store.put_put (s : Store) (k : String) (e1 e2 : Entry) :
    Store.put (Store.put s k e1) k e2 = Store.put s k e2 := by
  simp [Store.put, Store.remove, Store.remove_remove]

end redis

open redis

/-- A read of a key the reference store does not hold is a cache miss. -/
theorem get_absent_is_miss (js : json.Codec) (eng : compression.Engine) (d : time.Duration)
    (f : Faults) (st : Store) (k : String) (hget : f.get = none)
    (hl : Store.lookup st k = none) :
    redisCache.Get js (simCache f d eng) st k =
      (CachedResponse.zero, some ErrCacheMissed, st) := by
  simp [redisCache.Get, simCache, simClient, hget, hl]

/-! ## The claims -/

/-- C1: remote backend round trip.  For every key, value and store state (also one
that already holds another value under the key), when the store write and read
succeed, the value encodes to `b`, `b` decodes back to the value, `b` compresses to
`c` and `c` decompresses to `b`, then `Set` returns no error, the store holds `c`
under the key, and the following `Get` returns the value with no error. -/
theorem set_then_get_roundtrip (js : json.Codec) (eng : compression.Engine)
    (d : time.Duration) (f : Faults) (st : Store) (k : String) (v : CachedResponse)
    (b c : Bytes) (hset : f.set = none) (hget : f.get = none)
    (hm : js.Marshal v = some b) (hu : js.Unmarshal b = some v)
    (hc : eng.Compress b = some c) (hd : eng.Decompress c = some b) :
    (redisCache.Set js (simCache f d eng) st k v).1 = none ∧
    (Store.lookup (redisCache.Set js (simCache f d eng) st k v).2 k).map Entry.value
      = some c ∧
    redisCache.Get js (simCache f d eng) (redisCache.Set js (simCache f d eng) st k v).2 k
      = (v, none, (redisCache.Set js (simCache f d eng) st k v).2) := by
  have hs : redisCache.Set js (simCache f d eng) st k v
      = (none, Store.put st k ⟨c, time.mul d time.Second⟩) := by
    simp [redisCache.Set, simCache, simClient, hset, hm, hc]
  rw [hs]
  refine ⟨rfl, ?_, ?_⟩
  · simp [Store.lookup_put_self]
  · simp [redisCache.Get, simCache, simClient, hget, Store.lookup_put_self, hd, hu]

/-- C1 at a concrete input: the store already holds other bytes under `"a"`. -/
theorem set_then_get_roundtrip_witness :
    (redisCache.Set sample.flatJSON (simCache Faults.none time.Minute sample.tagEngine)
        [("a", ⟨[1, 2, 3], 0⟩)] "a" sample.resp).1 = none ∧
    (Store.lookup (redisCache.Set sample.flatJSON
        (simCache Faults.none time.Minute sample.tagEngine)
        [("a", ⟨[1, 2, 3], 0⟩)] "a" sample.resp).2 "a").map Entry.value
      = some [40, 200, 104, 105] ∧
    redisCache.Get sample.flatJSON (simCache Faults.none time.Minute sample.tagEngine)
        (redisCache.Set sample.flatJSON (simCache Faults.none time.Minute sample.tagEngine)
          [("a", ⟨[1, 2, 3], 0⟩)] "a" sample.resp).2 "a"
      = (sample.resp, none,
          (redisCache.Set sample.flatJSON (simCache Faults.none time.Minute sample.tagEngine)
            [("a", ⟨[1, 2, 3], 0⟩)] "a" sample.resp).2) :=
  set_then_get_roundtrip sample.flatJSON sample.tagEngine time.Minute Faults.none
    [("a", ⟨[1, 2, 3], 0⟩)] "a" sample.resp [200, 104, 105] [40, 200, 104, 105]
    rfl rfl rfl rfl rfl rfl

/-- What `Get` returns right after `Delete` on the reference server: the key is
present with the empty value, so the outcome is decided by the engine and the decoder
on the empty input, never by the key-not-found branch. -/
theorem delete_then_get (js : json.Codec) (eng : compression.Engine) (d : time.Duration)
    (f : Faults) (st : Store) (k : String) (hset : f.set = none) (hget : f.get = none) :
    (redisCache.Delete (simCache f d eng) st k) = (none, Store.put st k ⟨[], 0⟩) ∧
    redisCache.Get js (simCache f d eng) (Store.put st k ⟨[], 0⟩) k =
      match eng.Decompress [] with
      | none =>
        (CachedResponse.zero, some ErrInvalidCachedResponse,
          ((simClient f).del (Store.put st k ⟨[], 0⟩) k).2)
      | some input =>
        match js.Unmarshal input with
        | none => (CachedResponse.zero, some ErrStorageInternal, Store.put st k ⟨[], 0⟩)
        | some res => (res, none, Store.put st k ⟨[], 0⟩) := by
  refine ⟨?_, ?_⟩
  · simp [redisCache.Delete, simCache, simClient, hset]
  · simp only [redisCache.Get, simCache, simClient, hget, Store.lookup_put_self]

/-- C2: miss after delete, as the code runs it.  On a store whose commands all
succeed, `Set`, then `Delete`, then `Get` of the same key never reports `CacheMissed`,
whatever the engine and the decoder are: `Delete` leaves the key present with an empty
value and no expiration. -/
theorem set_delete_get_not_missed (js : json.Codec) (eng : compression.Engine)
    (d : time.Duration) (st : Store) (k : String) (v : CachedResponse) :
    (redisCache.Get js (simCache Faults.none d eng)
      (redisCache.Delete (simCache Faults.none d eng)
        (redisCache.Set js (simCache Faults.none d eng) st k v).2 k).2 k).2.1
      ≠ some ErrCacheMissed := by
  have h := delete_then_get js eng d Faults.none
    (redisCache.Set js (simCache Faults.none d eng) st k v).2 k rfl rfl
  rw [h.1]
  show (redisCache.Get js (simCache Faults.none d eng) _ k).2.1 ≠ _
  rw [h.2]
  split
  · simp
  · split <;> simp

/-- The scenario of the spec (`Set("a", …)`, `Delete("a")`, `Get("a")`) evaluated with
an engine that rejects the empty input and with one that accepts it. -/
theorem set_delete_get_sample :
    (redisCache.Get sample.flatJSON (simCache Faults.none 0 sample.tagEngine)
      (redisCache.Delete (simCache Faults.none 0 sample.tagEngine)
        (redisCache.Set sample.flatJSON (simCache Faults.none 0 sample.tagEngine)
          [] "a" sample.resp).2 "a").2 "a").2.1 = some ErrInvalidCachedResponse ∧
    (redisCache.Get sample.flatJSON (simCache Faults.none 0 sample.plainEngine)
      (redisCache.Delete (simCache Faults.none 0 sample.plainEngine)
        (redisCache.Set sample.flatJSON (simCache Faults.none 0 sample.plainEngine)
          [] "a" sample.resp).2 "a").2 "a").2.1 = some ErrStorageInternal := by
  constructor <;> rfl

/-- The part of the error mapping of `Set` that the code carries out: a compression
error gives `StorageInternal` and no store command is issued. -/
theorem set_compress_error {σ : Type} (js : json.Codec) (i : redisCache σ) (st : σ)
    (k : String) (v : CachedResponse)
    (hc : i.compressionEngine.Compress ((js.Marshal v).getD []) = none) :
    redisCache.Set js i st k v = (some ErrStorageInternal, st) := by
  simp [redisCache.Set, hc]

/-- The part of the error mapping of `Set` that the code carries out: an error of the
store write gives `StorageInternal`. -/
theorem set_write_error {σ : Type} (js : json.Codec) (i : redisCache σ) (st st1 : σ)
    (k : String) (v : CachedResponse) (input : Bytes) (e : Err)
    (hc : i.compressionEngine.Compress ((js.Marshal v).getD []) = some input)
    (hw : i.cache.set st k input (time.mul i.expiryTime time.Second) = (some e, st1)) :
    redisCache.Set js i st k v = (some ErrStorageInternal, st1) := by
  simp [redisCache.Set, hc, hw]

/-- C3: the error mapping of `Set`, as the code runs it on a serialization error.
When `json.Marshal` reports an error for the value, the engine compresses the `nil`
bytes to `c` and the store write succeeds, `Set` returns no error and stores `c` under
the key. -/
theorem set_marshal_error_is_stored (js : json.Codec) (eng : compression.Engine)
    (d : time.Duration) (f : Faults) (st : Store) (k : String) (v : CachedResponse)
    (c : Bytes) (hm : js.Marshal v = none) (hc : eng.Compress [] = some c)
    (hset : f.set = none) :
    redisCache.Set js (simCache f d eng) st k v
      = (none, Store.put st k ⟨c, time.mul d time.Second⟩) := by
  simp [redisCache.Set, simCache, simClient, hset, hm, hc]

/-- C3 at a concrete input: a response the encoder rejects is stored as the framed
empty payload, and `Set` reports success. -/
theorem set_marshal_error_is_stored_witness :
    sample.flatJSON.Marshal sample.respHdr = none ∧
    redisCache.Set sample.flatJSON (simCache Faults.none 0 sample.tagEngine) [] "a"
        sample.respHdr
      = (none, [("a", ⟨[40], 0⟩)]) :=
  ⟨rfl, set_marshal_error_is_stored sample.flatJSON sample.tagEngine 0 Faults.none [] "a"
    sample.respHdr [40] rfl rfl rfl⟩

/-- The expiration `Set` hands to the store write, for every configured duration. -/
theorem set_expiry_written (js : json.Codec) (eng : compression.Engine)
    (f : Faults) (st : Store) (k : String) (v : CachedResponse) (input : Bytes)
    (duration : List time.Duration)
    (hc : eng.Compress ((js.Marshal v).getD []) = some input) (hset : f.set = none) :
    (NewWithRedisCache (some eng) (simClient f) duration).map
        (fun i => Store.lookup (redisCache.Set js i st k v).2 k)
      = some (some ⟨input, time.wrapInt64 (firstDuration duration * 1000000000)⟩) := by
  simp [NewWithRedisCache, NewCache, redisCache.Set, simClient, hset, hc,
    Store.lookup_put_self, time.mul, time.Second]

/-- C4: the expiry passed to the store by `Set`, as the code runs it.  A backend
built with a duration of one second writes its entries with an expiration of `10^18`
nanoseconds, one built with one minute writes `4659767778871345152` nanoseconds (the
64-bit product has wrapped), and one built with no duration writes `0`. -/
theorem set_expiry_not_duration :
    (NewWithRedisCache (some sample.tagEngine) (simClient Faults.none) [time.Second]).map
        (fun i => (Store.lookup (redisCache.Set sample.flatJSON i [] "a" sample.resp).2
          "a").map Entry.expiration)
      = some (some 1000000000000000000) ∧
    (NewWithRedisCache (some sample.tagEngine) (simClient Faults.none) [time.Minute]).map
        (fun i => (Store.lookup (redisCache.Set sample.flatJSON i [] "a" sample.resp).2
          "a").map Entry.expiration)
      = some (some 4659767778871345152) ∧
    (NewWithRedisCache (some sample.tagEngine) (simClient Faults.none) []).map
        (fun i => (Store.lookup (redisCache.Set sample.flatJSON i [] "a" sample.resp).2
          "a").map Entry.expiration)
      = some (some 0) := by
  refine ⟨?_, ?_, ?_⟩ <;> decide

/-- For a duration in the 64-bit range, the expiration `Set` computes equals the
configured duration only when that duration is zero. -/
theorem mul_second_eq_iff (d : time.Duration) (hd : time.isInt64 d) :
    time.mul d time.Second = d ↔ d = 0 := by
  obtain ⟨h1, h2⟩ := hd
  show (d * 1000000000 + 2 ^ 63) % 2 ^ 64 - 2 ^ 63 = d ↔ d = 0
  norm_num at h1 h2 ⊢
  constructor
  · intro h
    have hq := Int.emod_add_ediv (d * 1000000000 + 9223372036854775808) 18446744073709551616
    generalize (d * 1000000000 + 9223372036854775808) / 18446744073709551616 = q at hq
    have h3 : (18446744073709551616 : Int) ∣ 999999999 * d := ⟨q, by linarith⟩
    have h4 : (18446744073709551616 : Int) ∣ d :=
      Int.dvd_of_dvd_mul_right_of_gcd_one h3 (by norm_num)
    obtain ⟨t, ht⟩ := h4
    subst ht
    have ht0 : t = 0 := by omega
    subst ht0
    rfl
  · intro h
    subst h
    norm_num

/-- C5: classification of a failed read by `Get`, for every client, store state and
key.  `Get` reports `CacheMissed` exactly when the read reports `redis.Nil`; every
other read error gives `StorageInternal`; in both cases the response is the zero value
and the store is the one `Get` started from. -/
theorem get_read_error_classification {σ : Type} (js : json.Codec) (i : redisCache σ)
    (st : σ) (k : String) :
    ((redisCache.Get js i st k).2.1 = some ErrCacheMissed ↔
      i.cache.get st k = .error Err.Nil) ∧
    (i.cache.get st k = .error Err.Nil →
      redisCache.Get js i st k = (CachedResponse.zero, some ErrCacheMissed, st)) ∧
    (∀ e, e ≠ Err.Nil → i.cache.get st k = .error e →
      redisCache.Get js i st k = (CachedResponse.zero, some ErrStorageInternal, st)) := by
  refine ⟨?_, ?_, ?_⟩
  · unfold redisCache.Get
    constructor
    · intro h
      split at h
      · next err hr =>
        by_cases he : err = Err.Nil
        · rw [hr, he]
        · simp [he] at h
      · split at h
        · simp at h
        · split at h <;> simp at h
    · intro h
      simp [h]
  · intro h
    simp [redisCache.Get, h]
  · intro e he h
    simp [redisCache.Get, h, he]

/-- C5 at concrete inputs: an absent key is a miss, a transport error is
`StorageInternal`, and the store is unchanged. -/
theorem get_read_error_classification_witness :
    redisCache.Get sample.flatJSON (simCache Faults.none 0 sample.tagEngine)
        [("b", ⟨[40, 200], 0⟩)] "a"
      = (CachedResponse.zero, some ErrCacheMissed, [("b", ⟨[40, 200], 0⟩)]) ∧
    redisCache.Get sample.flatJSON (simCache ⟨none, some 7, none, none⟩ 0 sample.tagEngine)
        [("b", ⟨[40, 200], 0⟩)] "b"
      = (CachedResponse.zero, some ErrStorageInternal, [("b", ⟨[40, 200], 0⟩)]) :=
  ⟨(get_read_error_classification sample.flatJSON
      (simCache Faults.none 0 sample.tagEngine) [("b", ⟨[40, 200], 0⟩)] "a").2.1 rfl,
   (get_read_error_classification sample.flatJSON
      (simCache ⟨none, some 7, none, none⟩ 0 sample.tagEngine)
      [("b", ⟨[40, 200], 0⟩)] "b").2.2 (Err.other 7) (by decide) rfl⟩

/-- C6, the claim as worded fails when the delete command fails.  The store holds
unframed bytes under `"a"`, the read succeeds and the `DEL` command fails with a
transport error: `Get` reports `InvalidCachedResponse` and discards the error of
`Del`, the key stays in the store, and the second `Get` on the resulting state reports
`InvalidCachedResponse` again, not `CacheMissed`. -/
theorem get_corrupt_del_fails :
    Store.lookup [("a", ⟨[1, 2, 3], 0⟩)] "a" = some ⟨[1, 2, 3], 0⟩ ∧
    sample.tagEngine.Decompress [1, 2, 3] = none ∧
    redisCache.Get sample.flatJSON (simCache ⟨none, none, some 3, none⟩ 0 sample.tagEngine)
        [("a", ⟨[1, 2, 3], 0⟩)] "a"
      = (CachedResponse.zero, some ErrInvalidCachedResponse, [("a", ⟨[1, 2, 3], 0⟩)]) ∧
    (redisCache.Get sample.flatJSON (simCache ⟨none, none, some 3, none⟩ 0 sample.tagEngine)
        (redisCache.Get sample.flatJSON
          (simCache ⟨none, none, some 3, none⟩ 0 sample.tagEngine)
          [("a", ⟨[1, 2, 3], 0⟩)] "a").2.2 "a").2.1
      = some ErrInvalidCachedResponse ∧
    (redisCache.Get sample.flatJSON (simCache ⟨none, none, some 3, none⟩ 0 sample.tagEngine)
        (redisCache.Get sample.flatJSON
          (simCache ⟨none, none, some 3, none⟩ 0 sample.tagEngine)
          [("a", ⟨[1, 2, 3], 0⟩)] "a").2.2 "a").2.1
      ≠ some ErrCacheMissed := by
  refine ⟨rfl, rfl, rfl, rfl, ?_⟩
  decide

/-- C6, amended: corruption handling.  When the read succeeds and the store holds bytes
under the key that the engine fails to decompress, then, whether the delete command
succeeds or not, `Get` returns the zero response with `InvalidCachedResponse` without
decoding anything, the new store is the one the client's `Del` of the key returns (its
error is discarded), and every other key is as before; and when the delete command
succeeds, the key is gone from the new store and a second `Get` of the key reports
`CacheMissed`. -/
theorem get_corrupt_deletes (js : json.Codec) (eng : compression.Engine)
    (d : time.Duration) (f : Faults) (st : Store) (k : String) (e : Entry)
    (hget : f.get = none)
    (hl : Store.lookup st k = some e) (hd : eng.Decompress e.value = none) :
    redisCache.Get js (simCache f d eng) st k
      = (CachedResponse.zero, some ErrInvalidCachedResponse,
          ((simCache f d eng).cache.del st k).2) ∧
    (∀ k2, k2 ≠ k →
      Store.lookup (redisCache.Get js (simCache f d eng) st k).2.2 k2
        = Store.lookup st k2) ∧
    (f.del = none →
      Store.lookup (redisCache.Get js (simCache f d eng) st k).2.2 k = none ∧
      redisCache.Get js (simCache f d eng)
          (redisCache.Get js (simCache f d eng) st k).2.2 k
        = (CachedResponse.zero, some ErrCacheMissed,
            (redisCache.Get js (simCache f d eng) st k).2.2)) := by
  have hg : redisCache.Get js (simCache f d eng) st k
      = (CachedResponse.zero, some ErrInvalidCachedResponse,
          ((simCache f d eng).cache.del st k).2) := by
    simp [redisCache.Get, simCache, simClient, hget, hl, hd]
  rw [hg]
  refine ⟨rfl, ?_, ?_⟩
  · intro k2 h2
    cases hc : f.del with
    | none =>
      simp only [simCache, simClient, hc]
      exact Store.lookup_remove_other st k k2 h2
    | some c => simp only [simCache, simClient, hc]
  · intro hdel
    have hr : ((simCache f d eng).cache.del st k).2 = Store.remove st k := by
      simp [simCache, simClient, hdel]
    rw [hr]
    exact ⟨Store.lookup_remove_self st k,
      get_absent_is_miss js eng d f _ k hget (Store.lookup_remove_self st k)⟩

/-- C6 at a concrete input: unframed bytes under `"a"`, valid bytes under `"b"`, and a
store whose commands succeed. -/
theorem get_corrupt_deletes_witness :
    redisCache.Get sample.flatJSON (simCache Faults.none 0 sample.tagEngine)
        [("a", ⟨[1, 2, 3], 0⟩), ("b", ⟨[40, 200], 0⟩)] "a"
      = (CachedResponse.zero, some ErrInvalidCachedResponse, [("b", ⟨[40, 200], 0⟩)]) ∧
    Store.lookup (redisCache.Get sample.flatJSON
        (simCache Faults.none 0 sample.tagEngine)
        [("a", ⟨[1, 2, 3], 0⟩), ("b", ⟨[40, 200], 0⟩)] "a").2.2 "b"
      = some ⟨[40, 200], 0⟩ ∧
    redisCache.Get sample.flatJSON (simCache Faults.none 0 sample.tagEngine)
        (redisCache.Get sample.flatJSON (simCache Faults.none 0 sample.tagEngine)
          [("a", ⟨[1, 2, 3], 0⟩), ("b", ⟨[40, 200], 0⟩)] "a").2.2 "a"
      = (CachedResponse.zero, some ErrCacheMissed, [("b", ⟨[40, 200], 0⟩)]) :=
  ⟨(get_corrupt_deletes sample.flatJSON sample.tagEngine 0 Faults.none
      [("a", ⟨[1, 2, 3], 0⟩), ("b", ⟨[40, 200], 0⟩)] "a" ⟨[1, 2, 3], 0⟩
      rfl rfl rfl).1,
   (get_corrupt_deletes sample.flatJSON sample.tagEngine 0 Faults.none
      [("a", ⟨[1, 2, 3], 0⟩), ("b", ⟨[40, 200], 0⟩)] "a" ⟨[1, 2, 3], 0⟩
      rfl rfl rfl).2.1 "b" (by decide),
   ((get_corrupt_deletes sample.flatJSON sample.tagEngine 0 Faults.none
      [("a", ⟨[1, 2, 3], 0⟩), ("b", ⟨[40, 200], 0⟩)] "a" ⟨[1, 2, 3], 0⟩
      rfl rfl rfl).2.2 rfl).2⟩

/-- C7: flush.  From every store state reached by a sequence of `Set` calls: when the
flush command succeeds, `Flush` returns no error and a following `Get` of any key (so
of each key that was set, whatever its spelling) whose read succeeds reports
`CacheMissed`; when the flush command fails, `Flush` returns `StorageInternal`, whether
or not reads succeed. -/
theorem flush_then_get_missed (js : json.Codec) (eng : compression.Engine)
    (d : time.Duration) (f : Faults) (st0 : Store) (kvs : List (String × CachedResponse)) :
    (f.flushAll = none →
      (redisCache.Flush (simCache f d eng) (setAll js (simCache f d eng) st0 kvs)).1 = none ∧
      ∀ k, f.get = none → redisCache.Get js (simCache f d eng)
          (redisCache.Flush (simCache f d eng) (setAll js (simCache f d eng) st0 kvs)).2 k
        = (CachedResponse.zero, some ErrCacheMissed,
            (redisCache.Flush (simCache f d eng)
              (setAll js (simCache f d eng) st0 kvs)).2)) ∧
    (f.flushAll ≠ none →
      (redisCache.Flush (simCache f d eng) (setAll js (simCache f d eng) st0 kvs)).1
        = some ErrStorageInternal) := by
  constructor
  · intro hfl
    have hF : redisCache.Flush (simCache f d eng) (setAll js (simCache f d eng) st0 kvs)
        = (none, []) := by
      simp [redisCache.Flush, simCache, simClient, hfl]
    rw [hF]
    refine ⟨rfl, ?_⟩
    intro k hget
    exact get_absent_is_miss js eng d f [] k hget rfl
  · intro hfl
    cases hc : f.flushAll with
    | none => exact absurd hc hfl
    | some c => simp [redisCache.Flush, simCache, simClient, hc]

/-- C7 at a concrete input: two keys are set, the store is flushed, both keys miss. -/
theorem flush_then_get_missed_witness :
    (setAll sample.flatJSON (simCache Faults.none 0 sample.tagEngine) []
        [("a", sample.resp), ("b", sample.respOld)]
      = [("b", ⟨[40, 404], 0⟩), ("a", ⟨[40, 200, 104, 105], 0⟩)]) ∧
    (redisCache.Flush (simCache Faults.none 0 sample.tagEngine)
        [("b", ⟨[40, 404], 0⟩), ("a", ⟨[40, 200, 104, 105], 0⟩)]).1 = none ∧
    redisCache.Get sample.flatJSON (simCache Faults.none 0 sample.tagEngine)
        (redisCache.Flush (simCache Faults.none 0 sample.tagEngine)
          [("b", ⟨[40, 404], 0⟩), ("a", ⟨[40, 200, 104, 105], 0⟩)]).2 "a"
      = (CachedResponse.zero, some ErrCacheMissed, []) ∧
    redisCache.Get sample.flatJSON (simCache Faults.none 0 sample.tagEngine)
        (redisCache.Flush (simCache Faults.none 0 sample.tagEngine)
          [("b", ⟨[40, 404], 0⟩), ("a", ⟨[40, 200, 104, 105], 0⟩)]).2 "b"
      = (CachedResponse.zero, some ErrCacheMissed, []) :=
  ⟨rfl,
   ((flush_then_get_missed sample.flatJSON sample.tagEngine 0 Faults.none []
      [("a", sample.resp), ("b", sample.respOld)]).1 rfl).1,
   ((flush_then_get_missed sample.flatJSON sample.tagEngine 0 Faults.none []
      [("a", sample.resp), ("b", sample.respOld)]).1 rfl).2 "a" rfl,
   ((flush_then_get_missed sample.flatJSON sample.tagEngine 0 Faults.none []
      [("a", sample.resp), ("b", sample.respOld)]).1 rfl).2 "b" rfl⟩

/-- C8: the in-memory construction default, as the code runs it.  With no duration
the option record handed to the embedded store names the LRU algorithm, expiry zero and
a maximum of 100 items; for every list of durations the algorithm is LRU, never LFU,
and the expiry is the first duration of the list. -/
theorem inmemory_algorithm_is_LRU :
    NewWithInmemoryCache [] = ⟨inmemcache.Algorithm.LRUAlgorithm, 0, 100⟩ ∧
    (∀ duration, (NewWithInmemoryCache duration).CacheAlgorithm
        = inmemcache.Algorithm.LRUAlgorithm) ∧
    (∀ duration, (NewWithInmemoryCache duration).CacheAlgorithm
        ≠ inmemcache.Algorithm.LFUAlgorithm) ∧
    (∀ d rest, (NewWithInmemoryCache (d :: rest)).ExpiryTime = d) ∧
    (∀ duration, (NewWithInmemoryCache duration).MaxSizeItem = MaxSizeCacheItem) := by
  refine ⟨rfl, fun _ => rfl, ?_, fun _ _ => rfl, fun _ => rfl⟩
  intro duration h
  have h2 : (NewWithInmemoryCache duration).CacheAlgorithm
      = inmemcache.Algorithm.LRUAlgorithm := rfl
  rw [h2] at h
  exact inmemcache.Algorithm.noConfusion h

/-- C9: idempotent delete.  For every key and store state, present key or not: when
the store write succeeds, `Delete` returns no error, and a second `Delete` returns no
error and leaves the store as the first left it; and whenever `Delete` returns an
error, the error is `StorageInternal` and the store write has failed. -/
theorem delete_idempotent (eng : compression.Engine) (d : time.Duration) (f : Faults)
    (st : Store) (k : String) :
    (f.set = none →
      (redisCache.Delete (simCache f d eng) st k).1 = none ∧
      redisCache.Delete (simCache f d eng) (redisCache.Delete (simCache f d eng) st k).2 k
        = (none, (redisCache.Delete (simCache f d eng) st k).2)) ∧
    (∀ e, (redisCache.Delete (simCache f d eng) st k).1 = some e →
      e = ErrStorageInternal ∧ f.set ≠ none) := by
  constructor
  · intro hset
    have h1 : ∀ s, redisCache.Delete (simCache f d eng) s k
        = (none, Store.put s k ⟨[], 0⟩) := by
      intro s
      simp [redisCache.Delete, simCache, simClient, hset]
    rw [h1 st, h1 (Store.put st k ⟨[], 0⟩), Store.put_put]
    exact ⟨rfl, rfl⟩
  · intro e he
    cases hc : f.set with
    | none => simp [redisCache.Delete, simCache, simClient, hc] at he
    | some c =>
      simp [redisCache.Delete, simCache, simClient, hc] at he
      exact ⟨he.symm, by simp⟩

/-- C9 at concrete inputs: a present key and a key never set. -/
theorem delete_idempotent_witness :
    (redisCache.Delete (simCache Faults.none 0 sample.tagEngine)
        [("a", ⟨[40, 200], 0⟩)] "a").1 = none ∧
    redisCache.Delete (simCache Faults.none 0 sample.tagEngine)
        (redisCache.Delete (simCache Faults.none 0 sample.tagEngine)
          [("a", ⟨[40, 200], 0⟩)] "a").2 "a"
      = (none, (redisCache.Delete (simCache Faults.none 0 sample.tagEngine)
          [("a", ⟨[40, 200], 0⟩)] "a").2) ∧
    (redisCache.Delete (simCache Faults.none 0 sample.tagEngine) [] "a").1 = none :=
  ⟨((delete_idempotent sample.tagEngine 0 Faults.none [("a", ⟨[40, 200], 0⟩)] "a").1 rfl).1,
   ((delete_idempotent sample.tagEngine 0 Faults.none [("a", ⟨[40, 200], 0⟩)] "a").1 rfl).2,
   ((delete_idempotent sample.tagEngine 0 Faults.none [] "a").1 rfl).1⟩

/-- C10: deserialization failure.  For every client, store state and key: when the
read returns bytes that decompress but whose decompressed bytes do not decode, `Get`
returns the zero response with `StorageInternal` (not `InvalidCachedResponse`) and the
store it started from, with no delete issued. -/
theorem get_unmarshal_error {σ : Type} (js : json.Codec) (i : redisCache σ) (st : σ)
    (k : String) (val input : Bytes) (hr : i.cache.get st k = .ok val)
    (hd : i.compressionEngine.Decompress val = some input)
    (hu : js.Unmarshal input = none) :
    redisCache.Get js i st k = (CachedResponse.zero, some ErrStorageInternal, st) ∧
    (redisCache.Get js i st k).2.1 ≠ some ErrInvalidCachedResponse := by
  have h : redisCache.Get js i st k = (CachedResponse.zero, some ErrStorageInternal, st) := by
    simp [redisCache.Get, hr, hd, hu]
  rw [h]
  exact ⟨rfl, by simp⟩

/-- C10 at a concrete input: a framed empty payload under `"a"`. -/
theorem get_unmarshal_error_witness :
    redisCache.Get sample.flatJSON (simCache Faults.none 0 sample.tagEngine)
        [("a", ⟨[40], 0⟩)] "a"
      = (CachedResponse.zero, some ErrStorageInternal, [("a", ⟨[40], 0⟩)]) ∧
    Store.lookup (redisCache.Get sample.flatJSON (simCache Faults.none 0 sample.tagEngine)
        [("a", ⟨[40], 0⟩)] "a").2.2 "a" = some ⟨[40], 0⟩ :=
  ⟨(get_unmarshal_error sample.flatJSON (simCache Faults.none 0 sample.tagEngine)
      [("a", ⟨[40], 0⟩)] "a" [40] [] rfl rfl rfl).1, rfl⟩

end httpcache
